import Mathlib

/-!
Verification development for the botty transcription pipeline.

Shallow embedding of:
* `src/plugins/transcription/message-tracker.js` (class `MessageTracker`):
  the job tracker with per-chat queues, dedup registries, cancellation
  registry, reply-correlation map and revocation handler.
* `src/plugins/transcription/transcription-service.js`
  (class `TranscriptionService`): the external enrichment call wrapper with
  size precheck, timeout race and unconditional cleanup of the audio file.
* `src/config.js` (`config.transcription`).

JavaScript `Set`/`Map` objects are modelled as lists (`List Nat`,
association lists); the single-threaded event loop is modelled as a
small-step system: each continuation is cut at its `await` suspension
points into atomic blocks, and a trace is an arbitrary list of events
(submissions, continuation blocks, revocations, sweeper ticks), with the
per-chat promise chaining expressed as an enabledness guard on the
continuation blocks.
-/

namespace Botty

/-! ## JavaScript collection primitives -/

/-- `Set.prototype.add`: inserts the element if absent (a JS `Set` holds each
value once). -/
def jsAdd (l : List Nat) (x : Nat) : List Nat :=
  if x ∈ l then l else l ++ [x]

/-- `Set.prototype.delete`: removes the element. The lists built by `jsAdd`
hold each element at most once, so removing every copy agrees with JS. -/
def jsDelete (l : List Nat) (x : Nat) : List Nat :=
  l.filter (fun y => y != x)

/-- `Map.prototype.get` on an association list. -/
def mapGet {β : Type} (m : List (Nat × β)) (k : Nat) : Option β :=
  match m with
  | [] => none
  | p :: r => if p.1 = k then some p.2 else mapGet r k

/-- `Map.prototype.set` on an association list. -/
def mapSet {β : Type} (m : List (Nat × β)) (k : Nat) (v : β) : List (Nat × β) :=
  if (mapGet m k).isSome then
    m.map (fun p => if p.1 = k then (k, v) else p)
  else m ++ [(k, v)]

/-- `Map.prototype.delete` on an association list. -/
def mapDelete {β : Type} (m : List (Nat × β)) (k : Nat) : List (Nat × β) :=
  m.filter (fun p => p.1 != k)

theorem mem_jsAdd {l : List Nat} {x a : Nat} :
    a ∈ jsAdd l x ↔ a ∈ l ∨ a = x := by
  unfold jsAdd
  by_cases h : x ∈ l
  · simp only [if_pos h]
    constructor
    · exact Or.inl
    · rintro (h1 | rfl)
      · exact h1
      · exact h
  · simp [if_neg h]

theorem mem_jsDelete {l : List Nat} {x a : Nat} :
    a ∈ jsDelete l x ↔ a ∈ l ∧ a ≠ x := by
  unfold jsDelete
  simp [List.mem_filter]

theorem mapGet_mapDelete {β : Type} (m : List (Nat × β)) (k : Nat) :
    mapGet (mapDelete m k) k = none := by
  induction m with
  | nil => rfl
  | cons p r ih =>
    unfold mapDelete at *
    by_cases h : p.1 = k
    · simp only [List.filter, h]
      simpa using ih
    · simp only [List.filter]
      have hb : (p.1 != k) = true := by simpa using h
      rw [hb]
      simpa [mapGet, h] using ih

theorem mapGet_isSome_iff {β : Type} (m : List (Nat × β)) (k : Nat) :
    (mapGet m k).isSome ↔ k ∈ m.map Prod.fst := by
  induction m with
  | nil => simp [mapGet]
  | cons p r ih =>
    by_cases h : p.1 = k
    · simp [mapGet, h]
    · simp only [mapGet, if_neg h, List.map_cons, List.mem_cons, ih]
      constructor
      · exact Or.inr
      · rintro (h1 | h1)
        · exact absurd h1.symm h
        · exact h1

theorem mapGet_append {β : Type} (l1 l2 : List (Nat × β)) (k : Nat) :
    mapGet (l1 ++ l2) k =
      match mapGet l1 k with
      | some v => some v
      | none => mapGet l2 k := by
  induction l1 with
  | nil => simp [mapGet]
  | cons p r ih =>
    by_cases h : p.1 = k
    · simp [mapGet, h]
    · simpa [mapGet, h] using ih

theorem mapGet_rewrite {β : Type} (r : List (Nat × β)) (k : Nat) (v : β) (k' : Nat) :
    mapGet (r.map (fun p => if p.1 = k then (k, v) else p)) k' =
      if k' = k then (if (mapGet r k).isSome then some v else none)
      else mapGet r k' := by
  induction r with
  | nil => by_cases h : k' = k <;> simp [mapGet, h]
  | cons p r ih =>
    by_cases hpk : p.1 = k
    · rw [List.map_cons, if_pos hpk]
      by_cases hk' : k' = k
      · subst hk'
        simp [mapGet, hpk]
      · have hne : k ≠ k' := fun he => hk' he.symm
        have hpk' : p.1 ≠ k' := by rw [hpk]; exact hne
        simp only [mapGet, if_neg hne, if_neg hpk', if_neg hk']
        rw [ih, if_neg hk']
    · rw [List.map_cons, if_neg hpk]
      by_cases hpk' : p.1 = k'
      · have hk' : k' ≠ k := fun he => hpk (hpk'.trans he)
        simp [mapGet, hpk', hk']
      · simp only [mapGet, if_neg hpk']
        rw [ih]
        by_cases hk' : k' = k
        · subst hk'
          simp [mapGet, hpk]
        · simp [hk']

theorem mapGet_mapSet_self {β : Type} (m : List (Nat × β)) (k : Nat) (v : β) :
    mapGet (mapSet m k v) k = some v := by
  unfold mapSet
  by_cases hs : (mapGet m k).isSome
  · rw [if_pos hs, mapGet_rewrite]
    simp [hs]
  · rw [if_neg hs, mapGet_append]
    have : mapGet m k = none := by
      cases h : mapGet m k
      · rfl
      · exact absurd (by simp [h]) hs
    simp [this, mapGet]

theorem mapGet_mapSet_other {β : Type} (m : List (Nat × β)) (k k' : Nat) (v : β)
    (h : k' ≠ k) : mapGet (mapSet m k v) k' = mapGet m k' := by
  unfold mapSet
  by_cases hs : (mapGet m k).isSome
  · rw [if_pos hs, mapGet_rewrite, if_neg h]
  · rw [if_neg hs, mapGet_append]
    cases hm : mapGet m k'
    · simp [mapGet, hm, Ne.symm h]
    · simp

theorem mem_keys_mapSet {β : Type} (m : List (Nat × β)) (k k' : Nat) (v : β) :
    k' ∈ (mapSet m k v).map Prod.fst ↔ k' ∈ m.map Prod.fst ∨ k' = k := by
  unfold mapSet
  by_cases hs : (mapGet m k).isSome
  · rw [if_pos hs]
    have hk : k ∈ m.map Prod.fst := (mapGet_isSome_iff m k).mp hs
    have hkeys : (m.map (fun p => if p.1 = k then (k, v) else p)).map Prod.fst
        = m.map Prod.fst := by
      rw [List.map_map]
      apply List.map_congr_left
      intro p _
      by_cases hpk : p.1 = k
      · simp [Function.comp, hpk]
      · simp [Function.comp, hpk]
    rw [hkeys]
    constructor
    · exact Or.inl
    · rintro (hm | rfl)
      · exact hm
      · exact hk
  · rw [if_neg hs]
    simp

/-! ## Submission order within a chat -/

/-- The jobs of the accepted-submission log that belong to chat `c`, in
acceptance order. -/
def chatJobs (l : List (Nat × Nat)) (c : Nat) : List Nat :=
  (l.filter (fun p => p.2 == c)).map Prod.fst

theorem chatJobs_nil (c : Nat) : chatJobs [] c = [] := rfl

theorem chatJobs_cons (p : Nat × Nat) (l : List (Nat × Nat)) (c : Nat) :
    chatJobs (p :: l) c =
      if p.2 = c then p.1 :: chatJobs l c else chatJobs l c := by
  unfold chatJobs
  rw [List.filter_cons]
  by_cases h : p.2 = c
  · simp [h]
  · simp [h]

theorem chatJobs_append_pair (l : List (Nat × Nat)) (j c c' : Nat) :
    chatJobs (l ++ [(j, c)]) c' =
      chatJobs l c' ++ (if c = c' then [j] else []) := by
  unfold chatJobs
  rw [List.filter_append, List.map_append]
  by_cases h : c = c'
  · simp [h]
  · simp [h]

theorem mem_chatJobs {l : List (Nat × Nat)} {j c : Nat} :
    j ∈ chatJobs l c ↔ (j, c) ∈ l := by
  unfold chatJobs
  simp only [List.mem_map, List.mem_filter]
  constructor
  · rintro ⟨p, ⟨hp, hc⟩, he⟩
    have : p = (j, c) := by
      obtain ⟨p1, p2⟩ := p
      simp only at he
      simp only [beq_iff_eq] at hc
      simp [he, hc]
    exact this ▸ hp
  · intro hm
    exact ⟨(j, c), ⟨hm, by simp⟩, rfl⟩

theorem chatJobs_sublist (l : List (Nat × Nat)) (c : Nat) :
    List.Sublist (chatJobs l c) (l.map Prod.fst) :=
  (List.filter_sublist l).map Prod.fst

/-- If a list without duplicates is split in two ways at the same element,
the two splits agree. -/
theorem nodup_middle_inj {xs ys zs ws : List Nat} {a : Nat}
    (h : (xs ++ a :: ys).Nodup) (he : xs ++ a :: ys = zs ++ a :: ws) :
    xs = zs ∧ ys = ws := by
  induction xs generalizing zs with
  | nil =>
    cases zs with
    | nil =>
      simp only [List.nil_append] at he
      exact ⟨rfl, by simpa using he⟩
    | cons z zs' =>
      simp only [List.nil_append, List.cons_append] at he
      obtain ⟨rfl, hrest⟩ := List.cons.inj he
      have hmem : a ∈ ys := by rw [hrest]; simp
      have h' : (a :: ys).Nodup := by simpa using h
      exact absurd hmem (List.nodup_cons.mp h').1
  | cons x xs' ih =>
    cases zs with
    | nil =>
      simp only [List.cons_append, List.nil_append] at he
      obtain ⟨rfl, hrest⟩ := List.cons.inj he
      have h' : (x :: (xs' ++ x :: ys)).Nodup := by
        simp only [List.cons_append] at h
        exact h
      exact absurd (by simp) (List.nodup_cons.mp h').1
    | cons z zs' =>
      simp only [List.cons_append] at he
      obtain ⟨rfl, hrest⟩ := List.cons.inj he
      have h' : (xs' ++ a :: ys).Nodup := by
        simpa using (List.nodup_cons.mp (by simpa using h)).2
      obtain ⟨h1, h2⟩ := ih h' hrest
      exact ⟨by rw [h1], h2⟩

/-- Acceptance order is reflected in `chatJobs`: if the log holds `(j1, c)`
strictly before `(j2, c)`, then `chatJobs` splits as
`pre ++ j1 :: suf` with `j2 ∈ suf`. -/
theorem chatJobs_order {l : List (Nat × Nat)} {a1 a2 j1 j2 c : Nat}
    (hlt : a1 < a2) (h1 : l[a1]? = some (j1, c)) (h2 : l[a2]? = some (j2, c)) :
    ∃ pre suf, chatJobs l c = pre ++ j1 :: suf ∧ j2 ∈ suf := by
  induction l generalizing a1 a2 with
  | nil => simp at h1
  | cons p r ih =>
    cases a1 with
    | zero =>
      have hp : p = (j1, c) := by simpa using h1
      obtain ⟨n, rfl⟩ : ∃ n, a2 = n + 1 := ⟨a2 - 1, by omega⟩
      have h2' : r[n]? = some (j2, c) := by simpa using h2
      have hj2 : j2 ∈ chatJobs r c :=
        mem_chatJobs.mpr (List.getElem?_mem h2')
      refine ⟨[], chatJobs r c, ?_, hj2⟩
      rw [chatJobs_cons, hp]
      simp
    | succ m =>
      obtain ⟨n, rfl⟩ : ∃ n, a2 = n + 1 := ⟨a2 - 1, by omega⟩
      have h1' : r[m]? = some (j1, c) := by simpa using h1
      have h2' : r[n]? = some (j2, c) := by simpa using h2
      obtain ⟨pre, suf, heq, hj2⟩ := ih (by omega) h1' h2'
      rw [chatJobs_cons]
      by_cases hc : p.2 = c
      · exact ⟨p.1 :: pre, suf, by simp [hc, heq], hj2⟩
      · exact ⟨pre, suf, by simp [hc, heq], hj2⟩

/-! ## JS `String.prototype.includes` (used by the error classification) -/

/-- Whether `pat` is an initial segment of `s`. -/
def startsWithChars : List Char → List Char → Bool
  | [], _ => true
  | _ :: _, [] => false
  | a :: as, b :: bs => a == b && startsWithChars as bs

/-- Whether `pat` occurs inside `s`. -/
def hasSubChars (s pat : List Char) : Bool :=
  match s with
  | [] => startsWithChars pat []
  | _ :: rest => startsWithChars pat s || hasSubChars rest pat

/-- JS `s.includes(pat)`. -/
def jsIncludes (s pat : String) : Bool :=
  hasSubChars s.toList pat.toList

/-! ## Configuration (`src/config.js`, `config.transcription`)

The object literal defines exactly three keys; in particular there is no
`cleanupIntervalMs` and no `maxAgeMs`, although `message-tracker.js`
reads both names (constructor line 16, and the sweep body that the
constructor schedules). -/

structure TxConfig where
  maxFileSizeMB : Nat
  timeoutMs : Nat

/-- `config.transcription` (`defaultLanguage: null` only selects the
auto-detect branch of the request parameters and plays no role in the
claims). -/
def configTranscription : TxConfig := { maxFileSizeMB := 25, timeoutMs := 300000 }

/-- The keys of the `config.transcription` object literal. -/
def configTranscriptionKeys : List String :=
  ["maxFileSizeMB", "timeoutMs", "defaultLanguage"]

/-! ## Enrichment Client (`TranscriptionService.transcribe`)

`static async transcribe(audioPath, messageId)`: a `try` block performs
`fs.stat`, the size precheck, and `Promise.race` between the OpenAI call
and a `setTimeout` rejection; a `finally` block always runs
`fs.unlink(audioPath)` (its own failure being swallowed). The model maps
each run to the list of file-system/network actions performed plus the
settled result of the returned promise. -/

/-- Actions performed by one run of `TranscriptionService.transcribe`. -/
inductive FsEv where
  | statCall
  | externalCall
  | unlink
  deriving DecidableEq, Repr

/-- Environment of one run: how `fs.stat` settles, when the external call
would settle (milliseconds), and with what outcome. -/
structure TxEnv where
  stat : Except String Nat
  callMs : Nat
  callResult : Except String String

/-- Message of the error thrown by the size precheck. The source message
interpolates the two sizes (`File size ...MB exceeds maximum ...MB`); only
the fact that it does not contain the substring addressed by the
downstream classification matters, so the interpolation is elided. -/
def fileSizeErrorMsg : String := "File size exceeds maximum"

/-- The `try` block (service lines 11 through 47). The byte comparison
`stats.size / (1024 * 1024) > config.transcription.maxFileSizeMB` is exact
in IEEE doubles because the divisor is a power of two, so it equals the
integer comparison `size > maxFileSizeMB * 1048576`. The race is won by
the external call exactly when it settles strictly before the timer. -/
def txTryBlock (cfg : TxConfig) (env : TxEnv) : List FsEv × Except String String :=
  match env.stat with
  | Except.error e => ([FsEv.statCall], Except.error e)
  | Except.ok size =>
    if size > cfg.maxFileSizeMB * 1048576 then
      ([FsEv.statCall], Except.error fileSizeErrorMsg)
    else if env.callMs < cfg.timeoutMs then
      ([FsEv.statCall, FsEv.externalCall], env.callResult)
    else
      ([FsEv.statCall, FsEv.externalCall], Except.error "Transcription timeout")

/-- JS `try ... finally`: the finalizer actions run after the body on every
exit path and the body outcome (value or thrown error) is re-raised. -/
def jsTryFinally (body : List FsEv × Except String String) (fin : List FsEv) :
    List FsEv × Except String String :=
  (body.1 ++ fin, body.2)

namespace TranscriptionService

/-- `TranscriptionService.transcribe`: the `try` block wrapped by the
`finally` block that deletes the audio file. -/
def transcribe (cfg : TxConfig) (env : TxEnv) : List FsEv × Except String String :=
  jsTryFinally (txTryBlock cfg env) [FsEv.unlink]

end TranscriptionService

/-! ## MessageTracker (`src/plugins/transcription/message-tracker.js`) -/

/-- The reply the queued continuation sends through `message.reply`:
either the transcription result (line 70) or the failure notice built from
`i18n.t(transcriptionFailed)` plus the classified detail, where `timeout`
selects the `transcriptionTimeout` wording and otherwise the
`transcriptionRetry` wording (lines 86 through 89). -/
inductive ReplyKind where
  | result (text : String)
  | failure (timeoutWording : Bool)
  deriving DecidableEq, Repr

/-- One delivered reply: which job it quotes, the chat it went to, and its
wording. -/
structure Delivery where
  job : Nat
  chat : Nat
  kind : ReplyKind
  deriving DecidableEq, Repr

/-- State of one `MessageTracker` instance. The first five fields are the
fields of the class (constructor lines 7 through 11); the remaining fields
are observation logs: `started` marks continuations whose first atomic
block has run (they sit suspended at the `await` of the reply),
`invoked` logs enrichment-client invocations, `accepted` logs accepted
submissions in order with their chat, `deliveries` logs successfully
delivered replies in order, and `deleteAttempts` logs reply-deletion
attempts made by `handleRevoke`. -/
structure Tracker where
  pending : List Nat
  completed : List Nat
  cancelled : List Nat
  transcriptionMessages : List (Nat × Nat)
  queues : List (Nat × List Nat)
  started : List Nat
  invoked : List Nat
  accepted : List (Nat × Nat)
  deliveries : List Delivery
  deleteAttempts : List Nat
  deriving DecidableEq, Repr

/-- The freshly constructed tracker: all registries empty. -/
def Tracker.init : Tracker :=
  { pending := [], completed := [], cancelled := [], transcriptionMessages := []
    queues := [], started := [], invoked := [], accepted := [], deliveries := []
    deleteAttempts := [] }

namespace MessageTracker

/-- `isProcessing(messageId)` (lines 19 through 21). -/
def isProcessing (s : Tracker) (j : Nat) : Bool := decide (j ∈ s.pending)

/-- `isCompleted(messageId)` (lines 23 through 25). -/
def isCompleted (s : Tracker) (j : Nat) : Bool := decide (j ∈ s.completed)

/-- The queue chained for a chat: the not-yet-finished continuations in
submission order; the head is the one the tail promise is currently
executing. A chat absent from the map has the empty queue. -/
def queueOf (s : Tracker) (c : Nat) : List Nat := (mapGet s.queues c).getD []

/-- Methods defined by the `MessageTracker` class body (`handleRevoke` and
`destroy` are each defined twice with identical behavior; in JS the later
definition wins). -/
def methodNames : List String :=
  ["constructor", "isProcessing", "isCompleted", "transcribe", "getStatus",
    "cleanup", "handleRevoke", "destroy"]

/-- The method name the constructor schedules with `setInterval`
(line 15): `this.cleanupTranscriptions()`. -/
def cleanupIntervalCallee : String := "cleanupTranscriptions"

/-- Outcome of the `try` block of the queued continuation (lines 60
through 80). Line 62 calls `TranscriptionService.transcribe` (an `async`
function, so it starts the enrichment call and returns a promise without
throwing synchronously); line 63 then evaluates
`this.pending.set(messageId, ...)`. `this.pending` is created as
`new Set()` (line 8) and JS `Set.prototype` has `add`, `delete`, `has`,
`clear` and the set-algebra methods but no `set`, so line 63 throws a
`TypeError` before the `await promise` of line 66 is reached. The success
branch (lines 66 through 80, including the result reply of line 70) is
therefore unreachable, and the thrown message below is what the `catch`
block of line 81 receives. -/
def continuationTryOutcome : Except String String :=
  Except.error "this.pending.set is not a function"

/-- Lines 86 through 88: classify the caught error by
`error.message.includes(timeout)`. -/
def errorDetailTimeout (errMsg : String) : Bool := jsIncludes errMsg "timeout"

/-- The reply the continuation sends as a function of the try-block
outcome: the result reply on normal completion (line 70), otherwise the
classified failure notice (lines 86 through 89). -/
def continuationReply : Except String String → ReplyKind
  | Except.ok text => ReplyKind.result text
  | Except.error m => ReplyKind.failure (errorDetailTimeout m)

end MessageTracker

/-- Events of the system. `submit j c` is a call
`transcribe(j, message, audioPath, client)` with `message.from = c`
(its body up to the return runs synchronously and only registers the
continuation). `runA c j replyOk` is the first atomic block of the queued
continuation of job `j` (enabled once `j` is at the head of the chat `c`
chain), ending at the `await` of the reply call, with `replyOk` telling
whether that reply promise fulfills. `runB c j` is the rest of the
continuation after the reply settles: the `finally` block of lines 93
through 99, after which the tail promise settles and the next continuation
may start. `revoke j deleteOk` is `handleRevoke` for a revocation that
resolves (via `protocolMessageKey`, lines 204 through 208) to the original
id `j`. `sweepTick` is one firing of the interval scheduled by the
constructor, and `cleanup` is a call of the `cleanup(maxAge)` method. -/
inductive Ev where
  | submit (j c : Nat)
  | runA (c j : Nat) (replyOk : Bool)
  | runB (c j : Nat)
  | revoke (j : Nat) (deleteOk : Bool)
  | sweepTick
  | cleanup
  deriving DecidableEq, Repr

namespace MessageTracker

/-- One atomic step of the system. -/
def step (s : Tracker) (e : Ev) : Tracker :=
  match e with
  | Ev.submit j c =>
    -- lines 29 through 37: dedup guards; both exits return without side effect.
    if isCompleted s j then s
    else if isProcessing s j then s
    else
      -- line 39: this.pending.add(messageId);
      -- lines 43 through 45: create the queue for the chat if absent;
      -- lines 48 through 103: chain the continuation onto the tail and
      -- store the new tail. The continuation itself runs later (runA/runB).
      { s with
        pending := jsAdd s.pending j
        queues := mapSet s.queues c (queueOf s c ++ [j])
        accepted := s.accepted ++ [(j, c)] }
  | Ev.runA c j replyOk =>
    -- Enabled when the previous task of the chain has settled, that is,
    -- when j is the head of the chain and its block has not run yet.
    if (queueOf s c).head? = some j ∧ j ∉ s.started then
      -- line 62: the enrichment client is invoked; line 63 throws (see
      -- continuationTryOutcome); the catch block classifies the caught
      -- message and calls message.reply with the failure notice, and the
      -- continuation suspends on that await. Note that the continuation
      -- never consults this.cancelled before replying, and never writes
      -- this.transcriptionMessages.
      { s with
        invoked := s.invoked ++ [j]
        started := s.started ++ [j]
        deliveries := s.deliveries ++
          (if replyOk then [⟨j, c, continuationReply continuationTryOutcome⟩] else []) }
    else s
  | Ev.runB c j =>
    -- The reply promise settled (a rejection is swallowed by the inner
    -- catch of lines 90 through 92); the finally block runs:
    if (queueOf s c).head? = some j ∧ j ∈ s.started then
      { s with
        completed := jsAdd s.completed j        -- line 95
        pending := jsDelete s.pending j         -- line 96
        cancelled := jsDelete s.cancelled j     -- line 98
        queues := mapSet s.queues c (queueOf s c).tail
        started := jsDelete s.started j }
    else s
  | Ev.revoke j _deleteOk =>
    -- handleRevoke (lines 189 through 242), with the id already resolved.
    if isProcessing s j then
      -- lines 212 through 216: flag the job for cancellation and return.
      { s with cancelled := jsAdd s.cancelled j }
    else if isCompleted s j then
      match mapGet s.transcriptionMessages j with
      | some _ =>
        -- lines 223 through 232: `await entry.transcriptionMessage.delete(true)`
        -- is attempted once; the map entry is removed on line 227 when the
        -- delete fulfills and on line 231 when it throws, so the resulting
        -- state does not depend on `deleteOk`.
        { s with
          transcriptionMessages := mapDelete s.transcriptionMessages j
          deleteAttempts := s.deleteAttempts ++ [j] }
      | none => s
    else s
  | Ev.sweepTick =>
    -- The constructor (lines 14 through 16) schedules
    -- `this.cleanupTranscriptions()`, but the class defines no method of
    -- that name (see methodNames), so every tick throws a TypeError and
    -- no registry is touched. (The interval delay
    -- `config.transcription.cleanupIntervalMs` is itself undefined.)
    s
  | Ev.cleanup =>
    -- `cleanup(maxAge)` (lines 118 through 122): the body consists only of
    -- comments.
    s

/-- Run a trace of events. -/
def run (s : Tracker) (evs : List Ev) : Tracker := evs.foldl step s

/-! ### Characterization of the individual steps -/

theorem step_sweepTick (s : Tracker) : step s Ev.sweepTick = s := rfl

theorem step_cleanupCall (s : Tracker) : step s Ev.cleanup = s := rfl

theorem step_submit_done (s : Tracker) (j c : Nat) (h : j ∈ s.completed) :
    step s (Ev.submit j c) = s := by
  simp [step, isCompleted, h]

theorem step_submit_dup (s : Tracker) (j c : Nat) (h : j ∈ s.pending) :
    step s (Ev.submit j c) = s := by
  by_cases hc : j ∈ s.completed
  · simp [step, isCompleted, hc]
  · simp [step, isCompleted, isProcessing, hc, h]

theorem step_submit_accept (s : Tracker) (j c : Nat)
    (h1 : j ∉ s.completed) (h2 : j ∉ s.pending) :
    step s (Ev.submit j c) =
      { s with pending := jsAdd s.pending j
               queues := mapSet s.queues c (queueOf s c ++ [j])
               accepted := s.accepted ++ [(j, c)] } := by
  simp [step, isCompleted, isProcessing, h1, h2]

theorem step_runA_go (s : Tracker) (c j : Nat) (ok : Bool)
    (h1 : (queueOf s c).head? = some j) (h2 : j ∉ s.started) :
    step s (Ev.runA c j ok) =
      { s with invoked := s.invoked ++ [j]
               started := s.started ++ [j]
               deliveries := s.deliveries ++
                 (if ok then [⟨j, c, continuationReply continuationTryOutcome⟩]
                  else []) } := by
  simp [step, h1, h2]

theorem step_runA_skip (s : Tracker) (c j : Nat) (ok : Bool)
    (h : ¬((queueOf s c).head? = some j ∧ j ∉ s.started)) :
    step s (Ev.runA c j ok) = s := by
  simp only [step, if_neg h]

theorem step_runB_go (s : Tracker) (c j : Nat)
    (h1 : (queueOf s c).head? = some j) (h2 : j ∈ s.started) :
    step s (Ev.runB c j) =
      { s with completed := jsAdd s.completed j
               pending := jsDelete s.pending j
               cancelled := jsDelete s.cancelled j
               queues := mapSet s.queues c (queueOf s c).tail
               started := jsDelete s.started j } := by
  simp [step, h1, h2]

theorem step_runB_skip (s : Tracker) (c j : Nat)
    (h : ¬((queueOf s c).head? = some j ∧ j ∈ s.started)) :
    step s (Ev.runB c j) = s := by
  simp only [step, if_neg h]

theorem step_revoke_pending (s : Tracker) (j : Nat) (ok : Bool) (h : j ∈ s.pending) :
    step s (Ev.revoke j ok) = { s with cancelled := jsAdd s.cancelled j } := by
  simp [step, isProcessing, h]

theorem step_revoke_nonpending_nocorr (s : Tracker) (j : Nat) (ok : Bool)
    (h1 : j ∉ s.pending) (h2 : mapGet s.transcriptionMessages j = none) :
    step s (Ev.revoke j ok) = s := by
  by_cases hc : j ∈ s.completed
  · simp [step, isProcessing, isCompleted, h1, hc, h2]
  · simp [step, isProcessing, isCompleted, h1, hc]

theorem step_revoke_nonpending_notcompleted (s : Tracker) (j : Nat) (ok : Bool)
    (h1 : j ∉ s.pending) (h2 : j ∉ s.completed) :
    step s (Ev.revoke j ok) = s := by
  simp [step, isProcessing, isCompleted, h1, h2]

theorem step_revoke_delete (s : Tracker) (j : Nat) (ok : Bool) (ts : Nat)
    (h1 : j ∉ s.pending) (h2 : j ∈ s.completed)
    (h3 : mapGet s.transcriptionMessages j = some ts) :
    step s (Ev.revoke j ok) =
      { s with transcriptionMessages := mapDelete s.transcriptionMessages j
               deleteAttempts := s.deleteAttempts ++ [j] } := by
  simp [step, isProcessing, isCompleted, h1, h2, h3]

/-! ### Reachability invariant -/

theorem head?_mem {l : List Nat} {a : Nat} (h : l.head? = some a) : a ∈ l := by
  cases l with
  | nil => simp at h
  | cons b t =>
    simp only [List.head?_cons, Option.some.injEq] at h
    simp [h]

theorem head?_eq_cons {l : List Nat} {a : Nat} (h : l.head? = some a) :
    ∃ t, l = a :: t := by
  cases l with
  | nil => simp at h
  | cons b t =>
    simp only [List.head?_cons, Option.some.injEq] at h
    exact ⟨t, by rw [h]⟩

/-- Invariant of the reachable tracker states. Besides the claimed
disjointness it records the structural facts tying the registries, the
chat queues, and the observation logs together. -/
structure TrackerInv (s : Tracker) : Prop where
  disj : ∀ j, j ∈ s.pending → j ∉ s.completed
  pq : ∀ j, j ∈ s.pending ↔ ∃ c, j ∈ queueOf s c
  accNodup : (s.accepted.map Prod.fst).Nodup
  accChar : ∀ j, j ∈ s.accepted.map Prod.fst ↔ (j ∈ s.pending ∨ j ∈ s.completed)
  qacc : ∀ c, ∃ done, chatJobs s.accepted c = done ++ queueOf s c
      ∧ ∀ x ∈ done, x ∈ s.completed
  invChar : ∀ j, j ∈ s.invoked ↔ (j ∈ s.started ∨ j ∈ s.completed)
  invCount : ∀ j, s.invoked.count j ≤ 1
  sHead : ∀ j ∈ s.started, ∃ c, (queueOf s c).head? = some j
  dJob : ∀ d ∈ s.deliveries, d.job ∈ s.invoked ∧ (d.job, d.chat) ∈ s.accepted
  dKind : ∀ d ∈ s.deliveries, d.kind = ReplyKind.failure false
  corrNil : s.transcriptionMessages = []
  dOrder : ∀ (a1 a2 j1 j2 c i1 i2 : Nat) (d1 d2 : Delivery), a1 < a2 →
      s.accepted[a1]? = some (j1, c) → s.accepted[a2]? = some (j2, c) →
      s.deliveries[i1]? = some d1 → s.deliveries[i2]? = some d2 →
      d1.job = j1 → d2.job = j2 → i1 < i2

theorem TrackerInv.chatOf {s : Tracker} (hs : TrackerInv s) {j c c' : Nat}
    (h1 : (j, c) ∈ s.accepted) (h2 : (j, c') ∈ s.accepted) : c = c' := by
  have he : ((j, c) : Nat × Nat) = (j, c') :=
    List.inj_on_of_nodup_map hs.accNodup h1 h2 rfl
  exact congrArg Prod.snd he

theorem TrackerInv.queueChat {s : Tracker} (hs : TrackerInv s) {j c : Nat}
    (h : j ∈ queueOf s c) : (j, c) ∈ s.accepted := by
  obtain ⟨done, heq, _⟩ := hs.qacc c
  have : j ∈ chatJobs s.accepted c := by
    rw [heq]
    exact List.mem_append_right done h
  exact mem_chatJobs.mp this

theorem TrackerInv.queueChatUnique {s : Tracker} (hs : TrackerInv s) {j c c' : Nat}
    (h1 : j ∈ queueOf s c) (h2 : j ∈ queueOf s c') : c = c' :=
  hs.chatOf (hs.queueChat h1) (hs.queueChat h2)

theorem TrackerInv.chatJobsNodup {s : Tracker} (hs : TrackerInv s) (c : Nat) :
    (chatJobs s.accepted c).Nodup :=
  hs.accNodup.sublist (chatJobs_sublist _ c)

theorem TrackerInv.startedPending {s : Tracker} (hs : TrackerInv s) {j : Nat}
    (h : j ∈ s.started) : j ∈ s.pending := by
  obtain ⟨c, hh⟩ := hs.sHead j h
  exact (hs.pq j).mpr ⟨c, head?_mem hh⟩

theorem inv_init : TrackerInv Tracker.init := by
  constructor <;>
    simp [Tracker.init, queueOf, mapGet, chatJobs]

theorem accNodup_getPair {s : Tracker} (hs : TrackerInv s) {a1 a2 j c0 c1 : Nat}
    (h1 : s.accepted[a1]? = some (j, c0)) (h2 : s.accepted[a2]? = some (j, c1)) :
    a1 = a2 := by
  have m1 : (s.accepted.map Prod.fst)[a1]? = some j := by
    rw [List.getElem?_map, h1]
    rfl
  have m2 : (s.accepted.map Prod.fst)[a2]? = some j := by
    rw [List.getElem?_map, h2]
    rfl
  exact List.getElem?_inj (List.getElem?_eq_some.mp m1).1 hs.accNodup
    (m1.trans m2.symm)

/-- While `j` sits at the head of the chat `c` chain, no job accepted later
into the same chat can have been invoked yet: it still waits behind `j` in
the queue. -/
theorem head_blocks_later {s : Tracker} (hs : TrackerInv s) {c j a1 a2 j2 : Nat}
    (hhead : (queueOf s c).head? = some j) (hlt : a1 < a2)
    (ha1 : s.accepted[a1]? = some (j, c)) (ha2 : s.accepted[a2]? = some (j2, c)) :
    j2 ∉ s.invoked := by
  obtain ⟨pre, suf, heq, hj2suf⟩ := chatJobs_order hlt ha1 ha2
  obtain ⟨done, hdq, hdone⟩ := hs.qacc c
  obtain ⟨t, ht⟩ := head?_eq_cons hhead
  have hdq' : chatJobs s.accepted c = done ++ j :: t := by rw [hdq, ht]
  have hnd : (chatJobs s.accepted c).Nodup := hs.chatJobsNodup c
  have hsplit : done = pre ∧ t = suf := by
    apply nodup_middle_inj (hdq' ▸ hnd)
    rw [← hdq', heq]
  have hj2t : j2 ∈ t := hsplit.2 ▸ hj2suf
  have hj2q : j2 ∈ queueOf s c := by
    rw [ht]
    exact List.mem_cons_of_mem j hj2t
  have hj2p : j2 ∈ s.pending := (hs.pq j2).mpr ⟨c, hj2q⟩
  have hj2c : j2 ∉ s.completed := hs.disj j2 hj2p
  have hjnott : j ∉ t := by
    have : (j :: t).Nodup := by
      have := hdq' ▸ hnd
      exact (List.nodup_append.mp this).2.1
    exact (List.nodup_cons.mp this).1
  have hj2ne : j2 ≠ j := fun he => hjnott (he ▸ hj2t)
  have hj2s : j2 ∉ s.started := by
    intro hst
    obtain ⟨c'', hh''⟩ := hs.sHead j2 hst
    have hc'' : c'' = c := hs.queueChatUnique (head?_mem hh'') hj2q
    rw [hc'', hhead] at hh''
    exact hj2ne (Option.some.inj hh'').symm
  intro hinv
  exact ((hs.invChar j2).mp hinv).elim hj2s hj2c

theorem inv_submit {s : Tracker} (hs : TrackerInv s) (j c : Nat) :
    TrackerInv (step s (Ev.submit j c)) := by
  by_cases hcd : j ∈ s.completed
  · rw [step_submit_done s j c hcd]
    exact hs
  by_cases hp : j ∈ s.pending
  · rw [step_submit_dup s j c hp]
    exact hs
  rw [step_submit_accept s j c hcd hp]
  have hjacc : j ∉ s.accepted.map Prod.fst := fun h =>
    ((hs.accChar j).mp h).elim hp hcd
  have hjinv : j ∉ s.invoked := fun h =>
    ((hs.invChar j).mp h).elim (fun h2 => hp (hs.startedPending h2)) hcd
  have hq : ∀ c', (mapGet (mapSet s.queues c (queueOf s c ++ [j])) c').getD [] =
      if c' = c then queueOf s c ++ [j] else queueOf s c' := by
    intro c'
    by_cases he : c' = c
    · subst he
      rw [mapGet_mapSet_self, if_pos rfl]
      rfl
    · rw [mapGet_mapSet_other _ _ _ _ he, if_neg he]
      rfl
  constructor
  · -- disj
    intro x hx
    rcases mem_jsAdd.mp hx with hx | rfl
    · exact hs.disj x hx
    · exact hcd
  · -- pq
    intro x
    show x ∈ jsAdd s.pending j ↔ _
    rw [mem_jsAdd]
    constructor
    · rintro (hx | rfl)
      · obtain ⟨c0, hx0⟩ := (hs.pq x).mp hx
        refine ⟨c0, ?_⟩
        show x ∈ (mapGet (mapSet s.queues c (queueOf s c ++ [j])) c0).getD []
        rw [hq c0]
        by_cases he : c0 = c
        · rw [if_pos he]
          subst he
          exact List.mem_append_left _ hx0
        · rw [if_neg he]
          exact hx0
      · refine ⟨c, ?_⟩
        show x ∈ (mapGet (mapSet s.queues c (queueOf s c ++ [x])) c).getD []
        rw [mapGet_mapSet_self]
        simp
    · rintro ⟨c0, hx0⟩
      replace hx0 : x ∈ (mapGet (mapSet s.queues c (queueOf s c ++ [j])) c0).getD [] := hx0
      rw [hq c0] at hx0
      by_cases he : c0 = c
      · rw [if_pos he] at hx0
        rcases List.mem_append.mp hx0 with hx0 | hx0
        · exact Or.inl ((hs.pq x).mpr ⟨c, hx0⟩)
        · exact Or.inr (by simpa using hx0)
      · rw [if_neg he] at hx0
        exact Or.inl ((hs.pq x).mpr ⟨c0, hx0⟩)
  · -- accNodup
    show ((s.accepted ++ [(j, c)]).map Prod.fst).Nodup
    rw [List.map_append]
    simp only [List.map_cons, List.map_nil]
    rw [List.nodup_append]
    refine ⟨hs.accNodup, List.nodup_singleton j, ?_⟩
    intro x hx hxj
    have hxe : x = j := by simpa using hxj
    subst hxe
    exact hjacc hx
  · -- accChar
    intro x
    show x ∈ (s.accepted ++ [(j, c)]).map Prod.fst ↔ x ∈ jsAdd s.pending j ∨ x ∈ s.completed
    rw [List.map_append, List.mem_append, mem_jsAdd]
    simp only [List.map_cons, List.map_nil, List.mem_singleton]
    rw [hs.accChar x]
    constructor
    · rintro ((hx | hx) | rfl)
      · exact Or.inl (Or.inl hx)
      · exact Or.inr hx
      · exact Or.inl (Or.inr rfl)
    · rintro ((hx | rfl) | hx)
      · exact Or.inl (Or.inl hx)
      · exact Or.inr rfl
      · exact Or.inl (Or.inr hx)
  · -- qacc
    intro c'
    obtain ⟨done, heq, hdone⟩ := hs.qacc c'
    refine ⟨done, ?_, hdone⟩
    show chatJobs (s.accepted ++ [(j, c)]) c' =
      done ++ (mapGet (mapSet s.queues c (queueOf s c ++ [j])) c').getD []
    rw [chatJobs_append_pair, hq c', heq]
    by_cases he : c' = c
    · subst he
      rw [if_pos rfl, if_pos rfl, List.append_assoc]
    · rw [if_neg (fun h => he h.symm), if_neg he, List.append_nil]
  · -- invChar
    exact hs.invChar
  · -- invCount
    exact hs.invCount
  · -- sHead
    intro x hx
    obtain ⟨c0, hh⟩ := hs.sHead x hx
    refine ⟨c0, ?_⟩
    show ((mapGet (mapSet s.queues c (queueOf s c ++ [j])) c0).getD []).head? = some x
    rw [hq c0]
    by_cases he : c0 = c
    · rw [if_pos he]
      subst he
      obtain ⟨t, ht⟩ := head?_eq_cons hh
      rw [ht]
      simp
    · rw [if_neg he]
      exact hh
  · -- dJob
    intro d hd
    obtain ⟨ha, hb⟩ := hs.dJob d hd
    exact ⟨ha, List.mem_append_left _ hb⟩
  · -- dKind
    exact hs.dKind
  · -- corrNil
    exact hs.corrNil
  · -- dOrder
    intro a1 a2 j1 j2 c0 i1 i2 d1 d2 hlt h1 h2 hd1 hd2 hj1 hj2
    rcases Nat.lt_trichotomy a2 s.accepted.length with ha2 | ha2 | ha2
    · rw [List.getElem?_append_left (Nat.lt_trans hlt ha2)] at h1
      rw [List.getElem?_append_left ha2] at h2
      exact hs.dOrder a1 a2 j1 j2 c0 i1 i2 d1 d2 hlt h1 h2 hd1 hd2 hj1 hj2
    · exfalso
      have hcat := List.getElem?_concat_length s.accepted (j, c)
      rw [← ha2] at hcat
      have heq2 : ((j2 : Nat), c0) = (j, c) := Option.some.inj (h2.symm.trans hcat)
      have hj2j : j2 = j := congrArg Prod.fst heq2
      have hmem : d2 ∈ s.deliveries := List.getElem?_mem hd2
      have := (hs.dJob d2 hmem).1
      rw [hj2, hj2j] at this
      exact hjinv this
    · exfalso
      have : (s.accepted ++ [(j, c)])[a2]? = none := by
        apply List.getElem?_eq_none
        simp only [List.length_append, List.length_cons, List.length_nil]
        omega
      rw [this] at h2
      exact Option.noConfusion h2

/-- The reply actually sent by every continuation: the failure notice with
the generic (non-timeout) wording, because the caught message is the
`TypeError` text, which does not contain the substring used for
classification. -/
theorem continuationReply_eval :
    continuationReply continuationTryOutcome = ReplyKind.failure false := by
  decide

theorem inv_runA {s : Tracker} (hs : TrackerInv s) (c j : Nat) (ok : Bool) :
    TrackerInv (step s (Ev.runA c j ok)) := by
  by_cases hg : (queueOf s c).head? = some j ∧ j ∉ s.started
  case neg =>
    rw [step_runA_skip s c j ok hg]
    exact hs
  obtain ⟨h1, h2⟩ := hg
  rw [step_runA_go s c j ok h1 h2]
  have hjq : j ∈ queueOf s c := head?_mem h1
  have hjp : j ∈ s.pending := (hs.pq j).mpr ⟨c, hjq⟩
  have hjcd : j ∉ s.completed := hs.disj j hjp
  have hjinv : j ∉ s.invoked := fun h => ((hs.invChar j).mp h).elim h2 hjcd
  constructor
  · -- disj
    exact hs.disj
  · -- pq
    exact hs.pq
  · -- accNodup
    exact hs.accNodup
  · -- accChar
    exact hs.accChar
  · -- qacc
    exact hs.qacc
  · -- invChar
    intro x
    show x ∈ s.invoked ++ [j] ↔ x ∈ s.started ++ [j] ∨ x ∈ s.completed
    rw [List.mem_append, List.mem_append]
    simp only [List.mem_singleton]
    constructor
    · rintro (hx | rfl)
      · rcases (hs.invChar x).mp hx with hx | hx
        · exact Or.inl (Or.inl hx)
        · exact Or.inr hx
      · exact Or.inl (Or.inr rfl)
    · rintro ((hx | rfl) | hx)
      · exact Or.inl ((hs.invChar x).mpr (Or.inl hx))
      · exact Or.inr rfl
      · exact Or.inl ((hs.invChar x).mpr (Or.inr hx))
  · -- invCount
    intro x
    show (s.invoked ++ [j]).count x ≤ 1
    rw [List.count_append]
    by_cases he : x = j
    · subst he
      have h0 : s.invoked.count x = 0 := List.count_eq_zero.mpr hjinv
      simp [h0]
    · have h0 : ([j] : List Nat).count x = 0 :=
        List.count_eq_zero.mpr (by simp [he])
      rw [h0]
      simpa using hs.invCount x
  · -- sHead
    intro x hx
    rcases List.mem_append.mp hx with hx | hx
    · exact hs.sHead x hx
    · have hxe : x = j := by simpa using hx
      subst hxe
      exact ⟨c, h1⟩
  · -- dJob
    intro d hd
    rcases List.mem_append.mp hd with hd | hd
    · obtain ⟨ha, hb⟩ := hs.dJob d hd
      exact ⟨List.mem_append_left _ ha, hb⟩
    · have hde : d = ⟨j, c, continuationReply continuationTryOutcome⟩ := by
        cases ok with
        | false => simp at hd
        | true =>
          have hd' : d ∈ [(⟨j, c, continuationReply continuationTryOutcome⟩ : Delivery)] := hd
          simpa using hd'
      subst hde
      exact ⟨by simp, hs.queueChat hjq⟩
  · -- dKind
    intro d hd
    rcases List.mem_append.mp hd with hd | hd
    · exact hs.dKind d hd
    · have hde : d = ⟨j, c, continuationReply continuationTryOutcome⟩ := by
        cases ok with
        | false => simp at hd
        | true =>
          have hd' : d ∈ [(⟨j, c, continuationReply continuationTryOutcome⟩ : Delivery)] := hd
          simpa using hd'
      subst hde
      exact continuationReply_eval
  · -- corrNil
    exact hs.corrNil
  · -- dOrder
    intro a1 a2 j1 j2 c0 i1 i2 d1 d2 hlt ha1 ha2 hd1 hd2 hj1 hj2
    cases ok with
    | false =>
      have hd1' : (s.deliveries ++ ([] : List Delivery))[i1]? = some d1 := hd1
      have hd2' : (s.deliveries ++ ([] : List Delivery))[i2]? = some d2 := hd2
      rw [List.append_nil] at hd1' hd2'
      exact hs.dOrder a1 a2 j1 j2 c0 i1 i2 d1 d2 hlt ha1 ha2 hd1' hd2' hj1 hj2
    | true =>
      replace hd1 : (s.deliveries ++
          [(⟨j, c, continuationReply continuationTryOutcome⟩ : Delivery)])[i1]?
          = some d1 := hd1
      replace hd2 : (s.deliveries ++
          [(⟨j, c, continuationReply continuationTryOutcome⟩ : Delivery)])[i2]?
          = some d2 := hd2
      have hc0 : (j1, c0) ∈ s.accepted := List.getElem?_mem ha1
      rcases Nat.lt_trichotomy i2 s.deliveries.length with hi2 | hi2 | hi2
      · -- the second delivery is an old one
        rw [List.getElem?_append_left hi2] at hd2
        rcases Nat.lt_trichotomy i1 s.deliveries.length with hi1 | hi1 | hi1
        · rw [List.getElem?_append_left hi1] at hd1
          exact hs.dOrder a1 a2 j1 j2 c0 i1 i2 d1 d2 hlt ha1 ha2 hd1 hd2 hj1 hj2
        · -- the first delivery is the new one: its job is j, at the head;
          -- but then j2 was accepted later into the same chat and cannot
          -- have been invoked, contradicting that d2 was delivered.
          exfalso
          have hcat := List.getElem?_concat_length s.deliveries
            (⟨j, c, continuationReply continuationTryOutcome⟩ : Delivery)
          rw [← hi1] at hcat
          have hde : d1 = ⟨j, c, continuationReply continuationTryOutcome⟩ :=
            Option.some.inj (hd1.symm.trans hcat)
          have hj1j : j1 = j := by rw [← hj1, hde]
          subst hj1j
          have hcc : c0 = c := hs.chatOf hc0 (hs.queueChat hjq)
          subst hcc
          have hnotinv : j2 ∉ s.invoked := head_blocks_later hs h1 hlt ha1 ha2
          have hmem : d2 ∈ s.deliveries := List.getElem?_mem hd2
          have := (hs.dJob d2 hmem).1
          rw [hj2] at this
          exact hnotinv this
        · exfalso
          have : (s.deliveries ++
              [(⟨j, c, continuationReply continuationTryOutcome⟩ : Delivery)])[i1]?
              = none := by
            apply List.getElem?_eq_none
            simp only [List.length_append, List.length_cons, List.length_nil]
            omega
          rw [this] at hd1
          exact Option.noConfusion hd1
      · -- the second delivery is the new one; any valid first index is older
        rcases Nat.lt_trichotomy i1 s.deliveries.length with hi1 | hi1 | hi1
        · omega
        · -- both indices would be the new delivery: then j1 = j2 = j and
          -- the two accepted entries coincide, contradicting a1 < a2.
          exfalso
          have hcat := List.getElem?_concat_length s.deliveries
            (⟨j, c, continuationReply continuationTryOutcome⟩ : Delivery)
          have hd1' := hd1
          have hd2' := hd2
          rw [← hi1] at hcat
          have hde1 : d1 = ⟨j, c, continuationReply continuationTryOutcome⟩ :=
            Option.some.inj (hd1'.symm.trans hcat)
          rw [hi2, ← hi1] at hd2'
          have hde2 : d2 = ⟨j, c, continuationReply continuationTryOutcome⟩ :=
            Option.some.inj (hd2'.symm.trans hcat)
          have : j1 = j2 := by
            rw [← hj1, ← hj2, hde1, hde2]
          have : a1 = a2 := accNodup_getPair hs (this ▸ ha1) ha2
          omega
        · exfalso
          have : (s.deliveries ++
              [(⟨j, c, continuationReply continuationTryOutcome⟩ : Delivery)])[i1]?
              = none := by
            apply List.getElem?_eq_none
            simp only [List.length_append, List.length_cons, List.length_nil]
            omega
          rw [this] at hd1
          exact Option.noConfusion hd1
      · exfalso
        have : (s.deliveries ++
            [(⟨j, c, continuationReply continuationTryOutcome⟩ : Delivery)])[i2]?
            = none := by
          apply List.getElem?_eq_none
          simp only [List.length_append, List.length_cons, List.length_nil]
          omega
        rw [this] at hd2
        exact Option.noConfusion hd2

theorem inv_runB {s : Tracker} (hs : TrackerInv s) (c j : Nat) :
    TrackerInv (step s (Ev.runB c j)) := by
  by_cases hg : (queueOf s c).head? = some j ∧ j ∈ s.started
  case neg =>
    rw [step_runB_skip s c j hg]
    exact hs
  obtain ⟨h1, h2⟩ := hg
  rw [step_runB_go s c j h1 h2]
  obtain ⟨t, ht⟩ := head?_eq_cons h1
  have hjq : j ∈ queueOf s c := head?_mem h1
  have hjp : j ∈ s.pending := (hs.pq j).mpr ⟨c, hjq⟩
  obtain ⟨done, hdq, hdone⟩ := hs.qacc c
  have hndq : (queueOf s c).Nodup := by
    have := hdq ▸ hs.chatJobsNodup c
    exact (List.nodup_append.mp this).2.1
  have hjnott : j ∉ t := by
    rw [ht] at hndq
    exact (List.nodup_cons.mp hndq).1
  have hq : ∀ c', (mapGet (mapSet s.queues c (queueOf s c).tail) c').getD [] =
      if c' = c then t else queueOf s c' := by
    intro c'
    by_cases he : c' = c
    · subst he
      rw [mapGet_mapSet_self, if_pos rfl, ht]
      rfl
    · rw [mapGet_mapSet_other _ _ _ _ he, if_neg he]
      rfl
  constructor
  · -- disj
    intro x hx
    obtain ⟨hxp, hxj⟩ := mem_jsDelete.mp hx
    intro hxc
    rcases mem_jsAdd.mp hxc with hxc | hxc
    · exact hs.disj x hxp hxc
    · exact hxj hxc
  · -- pq
    intro x
    show x ∈ jsDelete s.pending j ↔ _
    rw [mem_jsDelete]
    constructor
    · rintro ⟨hxp, hxj⟩
      obtain ⟨c0, hx0⟩ := (hs.pq x).mp hxp
      refine ⟨c0, ?_⟩
      show x ∈ (mapGet (mapSet s.queues c (queueOf s c).tail) c0).getD []
      rw [hq c0]
      by_cases he : c0 = c
      · rw [if_pos he]
        subst he
        rw [ht] at hx0
        rcases List.mem_cons.mp hx0 with hx0 | hx0
        · exact absurd hx0 hxj
        · exact hx0
      · rw [if_neg he]
        exact hx0
    · rintro ⟨c0, hx0⟩
      replace hx0 : x ∈ (mapGet (mapSet s.queues c (queueOf s c).tail) c0).getD [] := hx0
      rw [hq c0] at hx0
      by_cases he : c0 = c
      · rw [if_pos he] at hx0
        have hxq : x ∈ queueOf s c := by
          rw [ht]
          exact List.mem_cons_of_mem j hx0
        refine ⟨(hs.pq x).mpr ⟨c, hxq⟩, ?_⟩
        intro hxe
        subst hxe
        exact hjnott hx0
      · rw [if_neg he] at hx0
        refine ⟨(hs.pq x).mpr ⟨c0, hx0⟩, ?_⟩
        intro hxe
        subst hxe
        exact he (hs.queueChatUnique hx0 hjq)
  · -- accNodup
    exact hs.accNodup
  · -- accChar
    intro x
    show x ∈ s.accepted.map Prod.fst ↔ x ∈ jsDelete s.pending j ∨ x ∈ jsAdd s.completed j
    rw [mem_jsDelete, mem_jsAdd, hs.accChar x]
    constructor
    · rintro (hx | hx)
      · by_cases he : x = j
        · exact Or.inr (Or.inr he)
        · exact Or.inl ⟨hx, he⟩
      · exact Or.inr (Or.inl hx)
    · rintro (⟨hx, _⟩ | (hx | rfl))
      · exact Or.inl hx
      · exact Or.inr hx
      · exact Or.inl hjp
  · -- qacc
    intro c'
    by_cases he : c' = c
    · subst he
      refine ⟨done ++ [j], ?_, ?_⟩
      · show chatJobs s.accepted c' = (done ++ [j]) ++
          (mapGet (mapSet s.queues c' (queueOf s c').tail) c').getD []
        rw [hq c', if_pos rfl, hdq, ht]
        simp
      · intro x hx
        rcases List.mem_append.mp hx with hx | hx
        · exact mem_jsAdd.mpr (Or.inl (hdone x hx))
        · exact mem_jsAdd.mpr (Or.inr (by simpa using hx))
    · obtain ⟨done', hdq', hdone'⟩ := hs.qacc c'
      refine ⟨done', ?_, fun x hx => mem_jsAdd.mpr (Or.inl (hdone' x hx))⟩
      show chatJobs s.accepted c' = done' ++
        (mapGet (mapSet s.queues c (queueOf s c).tail) c').getD []
      rw [hq c', if_neg he]
      exact hdq'
  · -- invChar
    intro x
    show x ∈ s.invoked ↔ x ∈ jsDelete s.started j ∨ x ∈ jsAdd s.completed j
    rw [mem_jsDelete, mem_jsAdd]
    constructor
    · intro hx
      rcases (hs.invChar x).mp hx with hx | hx
      · by_cases he : x = j
        · exact Or.inr (Or.inr he)
        · exact Or.inl ⟨hx, he⟩
      · exact Or.inr (Or.inl hx)
    · rintro (⟨hx, _⟩ | (hx | rfl))
      · exact (hs.invChar x).mpr (Or.inl hx)
      · exact (hs.invChar x).mpr (Or.inr hx)
      · exact (hs.invChar x).mpr (Or.inl h2)
  · -- invCount
    exact hs.invCount
  · -- sHead
    intro x hx
    obtain ⟨hxs, hxj⟩ := mem_jsDelete.mp hx
    obtain ⟨c0, hh⟩ := hs.sHead x hxs
    by_cases he : c0 = c
    · subst he
      rw [h1] at hh
      exact absurd (Option.some.inj hh).symm hxj
    · refine ⟨c0, ?_⟩
      show ((mapGet (mapSet s.queues c (queueOf s c).tail) c0).getD []).head? = some x
      rw [hq c0, if_neg he]
      exact hh
  · -- dJob
    exact hs.dJob
  · -- dKind
    exact hs.dKind
  · -- corrNil
    exact hs.corrNil
  · -- dOrder
    exact hs.dOrder

theorem inv_revoke {s : Tracker} (hs : TrackerInv s) (j : Nat) (ok : Bool) :
    TrackerInv (step s (Ev.revoke j ok)) := by
  by_cases hp : j ∈ s.pending
  · rw [step_revoke_pending s j ok hp]
    exact { disj := hs.disj, pq := hs.pq, accNodup := hs.accNodup,
            accChar := hs.accChar, qacc := hs.qacc, invChar := hs.invChar,
            invCount := hs.invCount, sHead := hs.sHead, dJob := hs.dJob,
            dKind := hs.dKind, corrNil := hs.corrNil, dOrder := hs.dOrder }
  · rw [step_revoke_nonpending_nocorr s j ok hp (by rw [hs.corrNil]; rfl)]
    exact hs

theorem inv_step {s : Tracker} (hs : TrackerInv s) (e : Ev) :
    TrackerInv (step s e) := by
  cases e with
  | submit j c => exact inv_submit hs j c
  | runA c j ok => exact inv_runA hs c j ok
  | runB c j => exact inv_runB hs c j
  | revoke j ok => exact inv_revoke hs j ok
  | sweepTick => exact hs
  | cleanup => exact hs

theorem inv_run {s : Tracker} (hs : TrackerInv s) (evs : List Ev) :
    TrackerInv (run s evs) := by
  induction evs generalizing s with
  | nil => exact hs
  | cons e r ih => exact ih (inv_step hs e)

/-- Every state reachable from the freshly constructed tracker satisfies
the invariant. -/
theorem inv_reachable (evs : List Ev) : TrackerInv (run Tracker.init evs) :=
  inv_run inv_init evs

/-- In a list without duplicates, two elements cannot each appear strictly
after the other. -/
theorem nodup_order_asymm {l pre1 suf1 pre2 suf2 : List Nat} {x y : Nat}
    (h : l.Nodup) (e1 : l = pre1 ++ x :: suf1) (hy : y ∈ suf1)
    (e2 : l = pre2 ++ y :: suf2) (hx : x ∈ suf2) : False := by
  induction l generalizing pre1 pre2 with
  | nil =>
    cases pre1 <;> simp at e1
  | cons a r ih =>
    have hnr : r.Nodup := (List.nodup_cons.mp h).2
    have har : a ∉ r := (List.nodup_cons.mp h).1
    cases pre1 with
    | nil =>
      simp only [List.nil_append] at e1
      obtain ⟨rfl, rfl⟩ := List.cons.inj e1
      cases pre2 with
      | nil =>
        simp only [List.nil_append] at e2
        obtain ⟨rfl, rfl⟩ := List.cons.inj e2
        exact har hx
      | cons b pre2' =>
        simp only [List.cons_append] at e2
        obtain ⟨rfl, he2⟩ := List.cons.inj e2
        apply har
        rw [he2]
        exact List.mem_append_right _ (List.mem_cons_of_mem y hx)
    | cons b pre1' =>
      simp only [List.cons_append] at e1
      obtain ⟨rfl, he1⟩ := List.cons.inj e1
      cases pre2 with
      | nil =>
        simp only [List.nil_append] at e2
        obtain ⟨rfl, rfl⟩ := List.cons.inj e2
        apply har
        rw [he1]
        exact List.mem_append_right _ (List.mem_cons_of_mem x hy)
      | cons e pre2' =>
        simp only [List.cons_append] at e2
        obtain ⟨rfl, he2⟩ := List.cons.inj e2
        exact ih hnr he1 he2

/-- Once the continuation of a later job of a chat has started (or the job
has completed), every job accepted earlier into the same chat has
completed. -/
theorem started_or_completed_after {s : Tracker} (hs : TrackerInv s)
    {a1 a2 j1 j2 c : Nat} (hlt : a1 < a2)
    (h1 : s.accepted[a1]? = some (j1, c)) (h2 : s.accepted[a2]? = some (j2, c))
    (h : j2 ∈ s.started ∨ j2 ∈ s.completed) : j1 ∈ s.completed := by
  obtain ⟨pre, suf, heq, hj2suf⟩ := chatJobs_order hlt h1 h2
  obtain ⟨done, hdq, hdone⟩ := hs.qacc c
  have hnd := hs.chatJobsNodup c
  have hj1m : j1 ∈ chatJobs s.accepted c := by
    rw [heq]
    simp
  rw [hdq] at hj1m
  rcases List.mem_append.mp hj1m with hj1d | hj1q
  · exact hdone j1 hj1d
  · exfalso
    have hne : j1 ≠ j2 := by
      intro he
      subst he
      have := accNodup_getPair hs h1 h2
      omega
    rcases h with hst | hcp
    · obtain ⟨c'', hh⟩ := hs.sHead j2 hst
      have hc'' : c'' = c := by
        have hj2acc : ((j2 : Nat), c) ∈ s.accepted := List.getElem?_mem h2
        exact hs.chatOf (hs.queueChat (head?_mem hh)) hj2acc
      rw [hc''] at hh
      obtain ⟨t2, ht2⟩ := head?_eq_cons hh
      have hj1t2 : j1 ∈ t2 := by
        have hmm : j1 ∈ queueOf s c := hj1q
        rw [ht2] at hmm
        rcases List.mem_cons.mp hmm with he | hm
        · exact absurd he hne
        · exact hm
      have e2 : chatJobs s.accepted c = done ++ j2 :: t2 := by rw [hdq, ht2]
      exact nodup_order_asymm hnd heq hj2suf e2 hj1t2
    · have hj2m : j2 ∈ chatJobs s.accepted c := by
        rw [heq]
        exact List.mem_append_right _ (List.mem_cons_of_mem j1 hj2suf)
      have hj2d : j2 ∈ done := by
        rw [hdq] at hj2m
        rcases List.mem_append.mp hj2m with hd | hq2
        · exact hd
        · exact absurd hcp (hs.disj j2 ((hs.pq j2).mpr ⟨c, hq2⟩))
      obtain ⟨dpre, dsuf, hds⟩ := List.append_of_mem hj2d
      have e2 : chatJobs s.accepted c = dpre ++ j2 :: (dsuf ++ queueOf s c) := by
        rw [hdq, hds]
        simp
      have hx : j1 ∈ dsuf ++ queueOf s c := List.mem_append_right _ hj1q
      exact nodup_order_asymm hnd heq hj2suf e2 hx

/-- No step of the system removes a key from the per-chat queue map. -/
theorem step_queues_mono (s : Tracker) (e : Ev) (c : Nat)
    (h : c ∈ s.queues.map Prod.fst) : c ∈ (step s e).queues.map Prod.fst := by
  cases e with
  | submit j ch =>
    by_cases hc : j ∈ s.completed
    · rw [step_submit_done s j ch hc]
      exact h
    by_cases hp : j ∈ s.pending
    · rw [step_submit_dup s j ch hp]
      exact h
    · rw [step_submit_accept s j ch hc hp]
      exact (mem_keys_mapSet _ _ _ _).mpr (Or.inl h)
  | runA ch j ok =>
    by_cases hg : (queueOf s ch).head? = some j ∧ j ∉ s.started
    · obtain ⟨h1, h2⟩ := hg
      rw [step_runA_go s ch j ok h1 h2]
      exact h
    · rw [step_runA_skip s ch j ok hg]
      exact h
  | runB ch j =>
    by_cases hg : (queueOf s ch).head? = some j ∧ j ∈ s.started
    · obtain ⟨h1, h2⟩ := hg
      rw [step_runB_go s ch j h1 h2]
      exact (mem_keys_mapSet _ _ _ _).mpr (Or.inl h)
    · rw [step_runB_skip s ch j hg]
      exact h
  | revoke j ok =>
    by_cases hp : j ∈ s.pending
    · rw [step_revoke_pending s j ok hp]
      exact h
    by_cases hcp : j ∈ s.completed
    · cases hm : mapGet s.transcriptionMessages j with
      | none =>
        rw [step_revoke_nonpending_nocorr s j ok hp hm]
        exact h
      | some ts =>
        rw [step_revoke_delete s j ok ts hp hcp hm]
        exact h
    · rw [step_revoke_nonpending_notcompleted s j ok hp hcp]
      exact h
  | sweepTick => exact h
  | cleanup => exact h

theorem run_queues_mono (s : Tracker) (evs : List Ev) (c : Nat)
    (h : c ∈ s.queues.map Prod.fst) : c ∈ (run s evs).queues.map Prod.fst := by
  induction evs generalizing s with
  | nil => exact h
  | cons e r ih => exact ih _ (step_queues_mono s e c h)

end MessageTracker

open MessageTracker

/-! ## Concrete inputs used by the claim theorems -/

/-- The methods of JS `Set.prototype` (Node 24): there is no `set`. -/
def jsSetMethodNames : List String :=
  ["add", "clear", "delete", "difference", "entries", "forEach", "has",
    "intersection", "isDisjointFrom", "isSubsetOf", "isSupersetOf", "keys",
    "symmetricDifference", "union", "values"]

/-- One job submitted to chat 7 and run to completion; the enrichment call
started by its continuation is free to succeed, which makes this the
failing input for the success-path claims. -/
def submitRunTrace : List Ev :=
  [Ev.submit 1 7, Ev.runA 7 1 true, Ev.runB 7 1]

/-- One job submitted to chat 7, revoked while pending (so `handleRevoke`
flags it in CancelledSet), then run to completion. -/
def cancelTrace : List Ev :=
  [Ev.submit 1 7, Ev.revoke 1 true, Ev.runA 7 1 true, Ev.runB 7 1]

/-- Two jobs submitted to the same chat 7 in order 1 then 2 and run to
completion in queue order. -/
def fifoTrace : List Ev :=
  [Ev.submit 1 7, Ev.submit 2 7, Ev.runA 7 1 true, Ev.runB 7 1,
    Ev.runA 7 2 true, Ev.runB 7 2]

/-- Two jobs submitted to different chats; the scheduler runs the second
chat first, so job 2 completes while job 1 has not even been invoked. -/
def overlapTrace : List Ev :=
  [Ev.submit 1 7, Ev.submit 2 8, Ev.runA 8 2 true, Ev.runB 8 2]

/-- A tracker state holding a correlation entry for job 5 that is neither
pending nor completed. -/
def corrOnlyState : Tracker :=
  { Tracker.init with transcriptionMessages := [(5, 100)] }

/-- A tracker state holding a correlation entry for the completed job 5. -/
def compCorrState : Tracker :=
  { Tracker.init with completed := [5], transcriptionMessages := [(5, 100)] }

/-- A tracker state holding a stale correlation entry (delivery timestamp
0, arbitrarily old). -/
def staleCorrState : Tracker :=
  { Tracker.init with transcriptionMessages := [(9, 0)] }

/-- An enrichment-call environment whose external call would only settle at
the configured timeout (300000 ms), so the timer wins the race. -/
def envTimedOut : TxEnv :=
  { stat := Except.ok 1000, callMs := 300000, callResult := Except.ok "text" }

/-- An enrichment-call environment for an artifact of 26 MB, above the
configured 25 MB limit. -/
def envBig : TxEnv :=
  { stat := Except.ok (26 * 1048576), callMs := 5, callResult := Except.ok "text" }

/-! ## The claims -/

/-- C1: across any sequence of events, the Enrichment Client is invoked at
most once per JobId; a submit while the JobId is pending is a no-op, and a
submit while it is completed is a no-op (the whole state, including the
invocation and delivery logs, is unchanged). -/
theorem C1_dedup_single_invocation (evs : List Ev) (j c : Nat) :
    (run Tracker.init evs).invoked.count j ≤ 1
    ∧ (j ∈ (run Tracker.init evs).pending →
        step (run Tracker.init evs) (Ev.submit j c) = run Tracker.init evs)
    ∧ (j ∈ (run Tracker.init evs).completed →
        step (run Tracker.init evs) (Ev.submit j c) = run Tracker.init evs) :=
  ⟨(inv_reachable evs).invCount j,
   fun h => step_submit_dup _ j c h,
   fun h => step_submit_done _ j c h⟩

/-- Witness for C1 at concrete traces: a pending job and a completed job. -/
theorem C1_dedup_single_invocation_witness :
    (run Tracker.init [Ev.submit 3 1]).invoked.count 3 ≤ 1
    ∧ step (run Tracker.init [Ev.submit 3 1]) (Ev.submit 3 1)
        = run Tracker.init [Ev.submit 3 1]
    ∧ step (run Tracker.init [Ev.submit 4 1, Ev.runA 1 4 true, Ev.runB 1 4])
        (Ev.submit 4 1)
        = run Tracker.init [Ev.submit 4 1, Ev.runA 1 4 true, Ev.runB 1 4] :=
  ⟨(C1_dedup_single_invocation [Ev.submit 3 1] 3 1).1,
   (C1_dedup_single_invocation [Ev.submit 3 1] 3 1).2.1 (by decide),
   (C1_dedup_single_invocation [Ev.submit 4 1, Ev.runA 1 4 true, Ev.runB 1 4] 4 1).2.2
     (by decide)⟩

/-- C2, evaluated at the failing input: a submitted job whose enrichment
call is free to succeed still never gets a result reply. Line 62 of the
tracker starts the call (invoked = [1]), but line 63
(`this.pending.set(...)` on a JS `Set`, which has no `set` method) throws,
so the continuation lands in the catch block: the only delivery is the
generic failure notice, and no code path ever writes the
`transcriptionMessages` correlation map. -/
theorem C2_success_reply_never_delivered :
    jsSetMethodNames.contains "set" = false
    ∧ continuationTryOutcome = Except.error "this.pending.set is not a function"
    ∧ (run Tracker.init submitRunTrace).invoked = [1]
    ∧ (run Tracker.init submitRunTrace).completed = [1]
    ∧ (run Tracker.init submitRunTrace).deliveries
        = [⟨1, 7, ReplyKind.failure false⟩]
    ∧ (run Tracker.init submitRunTrace).transcriptionMessages = [] :=
  ⟨by decide, rfl, by decide, by decide, by decide, by decide⟩

/-- C3: within one chat, jobs run and deliver in submission order — if job
j2 was accepted after j1 in the same chat, then j2 having started (or
completed) implies j1 completed, and any delivery of j1 precedes any
delivery of j2 in the delivery log; across different chats, a
later-submitted job can complete before an earlier one is even invoked. -/
theorem C3_fifo_per_chat (evs : List Ev) (a1 a2 j1 j2 c i1 i2 : Nat)
    (d1 d2 : Delivery) :
    ((run Tracker.init evs).accepted[a1]? = some (j1, c) →
      (run Tracker.init evs).accepted[a2]? = some (j2, c) → a1 < a2 →
      ((j2 ∈ (run Tracker.init evs).started ∨ j2 ∈ (run Tracker.init evs).completed) →
          j1 ∈ (run Tracker.init evs).completed)
      ∧ ((run Tracker.init evs).deliveries[i1]? = some d1 → d1.job = j1 →
          (run Tracker.init evs).deliveries[i2]? = some d2 → d2.job = j2 →
          i1 < i2))
    ∧ (2 ∈ (run Tracker.init overlapTrace).completed
        ∧ 1 ∈ (run Tracker.init overlapTrace).pending
        ∧ 1 ∉ (run Tracker.init overlapTrace).invoked) := by
  constructor
  · intro h1 h2 hlt
    constructor
    · exact fun h => started_or_completed_after (inv_reachable evs) hlt h1 h2 h
    · intro hd1 hj1 hd2 hj2
      exact (inv_reachable evs).dOrder a1 a2 j1 j2 c i1 i2 d1 d2 hlt h1 h2 hd1 hd2 hj1 hj2
  · exact ⟨by decide, by decide, by decide⟩

/-- Witness for C3 at the concrete same-chat trace. -/
theorem C3_fifo_per_chat_witness :
    1 ∈ (run Tracker.init fifoTrace).completed ∧ (0 : Nat) < 1 := by
  have h := (C3_fifo_per_chat fifoTrace 0 1 1 2 7 0 1
    ⟨1, 7, ReplyKind.failure false⟩ ⟨2, 7, ReplyKind.failure false⟩).1
    (by decide) (by decide) (by decide)
  exact ⟨h.1 (Or.inr (by decide)), h.2 (by decide) (by decide) (by decide) (by decide)⟩

/-- C4: in every reachable state, no JobId is simultaneously in PendingSet
and in CompletedSet — `isProcessing` and `isCompleted` are never both
true. -/
theorem C4_pending_completed_disjoint (evs : List Ev) (j : Nat) :
    (isProcessing (run Tracker.init evs) j
      && isCompleted (run Tracker.init evs) j) = false := by
  by_cases hp : j ∈ (run Tracker.init evs).pending
  · have hc := (inv_reachable evs).disj j hp
    simp [isProcessing, isCompleted, hp, hc]
  · simp [isProcessing, isCompleted, hp]

/-- C5, evaluated at the failing input: revoking the pending job 1 does set
the cancellation flag, the enrichment call still runs (invoked once), the
job still moves to CompletedSet and the flag is cleared — but the reply is
NOT suppressed: the continuation never consults `this.cancelled` before
replying, so a reply (the failure notice produced by the line 63
`TypeError`) is still delivered through the source handle. -/
theorem C5_cancelled_reply_not_suppressed :
    1 ∈ (run Tracker.init [Ev.submit 1 7, Ev.revoke 1 true]).cancelled
    ∧ (run Tracker.init cancelTrace).deliveries
        = [⟨1, 7, ReplyKind.failure false⟩]
    ∧ (run Tracker.init cancelTrace).invoked = [1]
    ∧ (run Tracker.init cancelTrace).completed = [1]
    ∧ (run Tracker.init cancelTrace).cancelled = [] := by
  decide

/-- C6: `TranscriptionService.transcribe` performs the `unlink` of the
audio file exactly once on every exit path (stat failure, size precheck
failure, timeout, external failure, success), and when the size precheck
fails no external call is attempted. -/
theorem C6_artifact_always_deleted (cfg : TxConfig) (env : TxEnv) :
    (TranscriptionService.transcribe cfg env).1.count FsEv.unlink = 1
    ∧ (∀ size : Nat, env.stat = Except.ok size →
        size > cfg.maxFileSizeMB * 1048576 →
        FsEv.externalCall ∉ (TranscriptionService.transcribe cfg env).1) := by
  constructor
  · show (jsTryFinally (txTryBlock cfg env) [FsEv.unlink]).1.count FsEv.unlink = 1
    unfold jsTryFinally
    rw [List.count_append]
    have hbody : (txTryBlock cfg env).1.count FsEv.unlink = 0 := by
      unfold txTryBlock
      cases env.stat with
      | error e => rfl
      | ok size =>
        dsimp only
        split_ifs <;> rfl
    rw [hbody]
    rfl
  · intro size hst hsz
    show FsEv.externalCall ∉ (jsTryFinally (txTryBlock cfg env) [FsEv.unlink]).1
    unfold jsTryFinally txTryBlock
    rw [hst]
    dsimp only
    rw [if_pos hsz]
    decide

/-- Witness for C6: the oversized-artifact environment. -/
theorem C6_artifact_always_deleted_witness :
    (TranscriptionService.transcribe configTranscription envBig).1.count FsEv.unlink = 1
    ∧ FsEv.externalCall ∉ (TranscriptionService.transcribe configTranscription envBig).1 :=
  ⟨(C6_artifact_always_deleted configTranscription envBig).1,
   (C6_artifact_always_deleted configTranscription envBig).2 (26 * 1048576)
     rfl (by decide)⟩

/-- C7 counterexample: a revoke for a JobId that is not pending and has a
recorded correlation entry, but is not in CompletedSet, deletes nothing
and removes nothing — `handleRevoke` consults the entry only behind its
`isCompleted` check, so the claim as stated fails at this state. -/
theorem C7_revoke_entry_retained :
    5 ∉ corrOnlyState.pending
    ∧ (mapGet corrOnlyState.transcriptionMessages 5).isSome = true
    ∧ step corrOnlyState (Ev.revoke 5 true) = corrOnlyState
    ∧ (step corrOnlyState (Ev.revoke 5 true)).deleteAttempts = [] := by
  decide

/-- C7 (amended with the `isCompleted` gate): when a revoke arrives for a
JobId that is not pending, is in CompletedSet, and has a recorded
correlation entry, the handler attempts deletion of the delivered reply
exactly once and removes the entry unconditionally — the resulting state
is the same whether the delete call fulfills or throws. -/
theorem C7_revoke_delete_once (s : Tracker) (j ts : Nat) (ok : Bool)
    (h1 : j ∉ s.pending) (h2 : j ∈ s.completed)
    (h3 : mapGet s.transcriptionMessages j = some ts) :
    (step s (Ev.revoke j ok)).deleteAttempts = s.deleteAttempts ++ [j]
    ∧ mapGet (step s (Ev.revoke j ok)).transcriptionMessages j = none
    ∧ step s (Ev.revoke j true) = step s (Ev.revoke j false) := by
  rw [step_revoke_delete s j ok ts h1 h2 h3, step_revoke_delete s j true ts h1 h2 h3,
    step_revoke_delete s j false ts h1 h2 h3]
  exact ⟨rfl, mapGet_mapDelete _ j, rfl⟩

/-- Witness for the amended C7 at a concrete state. -/
theorem C7_revoke_delete_once_witness :
    (step compCorrState (Ev.revoke 5 true)).deleteAttempts = [] ++ [5]
    ∧ mapGet (step compCorrState (Ev.revoke 5 true)).transcriptionMessages 5 = none :=
  ⟨(C7_revoke_delete_once compCorrState 5 100 true (by decide) (by decide)
      (by decide)).1,
   (C7_revoke_delete_once compCorrState 5 100 true (by decide) (by decide)
      (by decide)).2.1⟩

/-- C8, evaluated at the failing input: the constructor schedules
`this.cleanupTranscriptions()`, but the class defines no method of that
name, and `config.transcription` defines neither `cleanupIntervalMs` nor
`maxAgeMs`; a sweeper tick therefore removes nothing — the arbitrarily old
correlation entry survives the tick. -/
theorem C8_sweeper_without_method :
    methodNames.contains cleanupIntervalCallee = false
    ∧ configTranscriptionKeys.contains "cleanupIntervalMs" = false
    ∧ configTranscriptionKeys.contains "maxAgeMs" = false
    ∧ step staleCorrState Ev.sweepTick = staleCorrState
    ∧ (step staleCorrState Ev.sweepTick).transcriptionMessages = [(9, 0)] := by
  decide

/-- C9, evaluated at the failing input: a call that settles only at the
configured timeout does make the service reject with the timeout error,
and the substring classification would select the timeout wording for that
error — but the error that reaches the failure branch of the queued
continuation is the line 63 `TypeError`, whose message classifies to the
generic retry wording, so the delivered notice is the generic one (the
timeout rejection itself is never awaited). -/
theorem C9_timeout_notice_unreachable :
    (TranscriptionService.transcribe configTranscription envTimedOut).2
        = Except.error "Transcription timeout"
    ∧ errorDetailTimeout "Transcription timeout" = true
    ∧ continuationTryOutcome = Except.error "this.pending.set is not a function"
    ∧ errorDetailTimeout "this.pending.set is not a function" = false
    ∧ (run Tracker.init submitRunTrace).deliveries
        = [⟨1, 7, ReplyKind.failure false⟩] :=
  ⟨rfl, by decide, rfl, by decide, by decide⟩

/-- C10: the per-chat queue map only grows — no step (submission,
continuation block, revocation, sweeper tick, or the cleanup method)
removes a chat key, over any continuation of the run; and an accepted
submission creates the key for its chat. -/
theorem C10_queue_keys_never_removed (s : Tracker) (e : Ev) (evs : List Ev)
    (c j : Nat) (h : c ∈ s.queues.map Prod.fst) :
    c ∈ (step s e).queues.map Prod.fst
    ∧ c ∈ (run s evs).queues.map Prod.fst
    ∧ (j ∉ s.completed → j ∉ s.pending →
        c ∈ (step s (Ev.submit j c)).queues.map Prod.fst) := by
  refine ⟨step_queues_mono s e c h, run_queues_mono s evs c h, ?_⟩
  intro h1 h2
  rw [step_submit_accept s j c h1 h2]
  exact (mem_keys_mapSet _ _ _ _).mpr (Or.inr rfl)

/-- Witness for C10 at a concrete state with an existing chat key. -/
theorem C10_queue_keys_never_removed_witness :
    7 ∈ (step (run Tracker.init [Ev.submit 1 7]) Ev.cleanup).queues.map Prod.fst
    ∧ 7 ∈ (run (run Tracker.init [Ev.submit 1 7]) [Ev.runA 7 1 true, Ev.runB 7 1,
        Ev.sweepTick]).queues.map Prod.fst
    ∧ 7 ∈ (step (run Tracker.init [Ev.submit 1 7]) (Ev.submit 2 7)).queues.map Prod.fst :=
  ⟨(C10_queue_keys_never_removed (run Tracker.init [Ev.submit 1 7]) Ev.cleanup
      [Ev.runA 7 1 true, Ev.runB 7 1, Ev.sweepTick] 7 2 (by decide)).1,
   (C10_queue_keys_never_removed (run Tracker.init [Ev.submit 1 7]) Ev.cleanup
      [Ev.runA 7 1 true, Ev.runB 7 1, Ev.sweepTick] 7 2 (by decide)).2.1,
   (C10_queue_keys_never_removed (run Tracker.init [Ev.submit 1 7]) Ev.cleanup
      [Ev.runA 7 1 true, Ev.runB 7 1, Ev.sweepTick] 7 2 (by decide)).2.2
      (by decide) (by decide)⟩

end Botty
